import Mathlib

/-!
Shallow embedding of the cTrader webhook services.

Main source: src/tradingview_ctrader_webhook.py — the netting engine in
`CTradingAPI.send_new_order_request` (inner `place_order`), the position
filter `on_reconcile_received`, and the `/webhook` Flask handler.
Secondary source: src/app.py — the simpler variant's `place_order` and
`webhook`.

Volumes are rationals: the Python code works in floats obtained from JSON
and from broker volumes divided by 100; we model the arithmetic exactly
over the rationals.  Broker-side position volumes (protobuf field
`tradeData.volume`) are non-negative integers (cents of lots), modelled
as naturals.  Python's `int()` truncation toward zero is `pyInt`.
-/

/-- ProtoOATradeSide: the broker's trade-side enumeration (BUY = 1, SELL = 2). -/
inductive TradeSide where
  | BUY
  | SELL
  deriving DecidableEq, Repr

/-- ProtoOAPositionStatus values relevant to the engine (spec data model:
OPEN, CLOSING, CLOSED). -/
inductive PositionStatus where
  | OPEN
  | CLOSING
  | CLOSED
  deriving DecidableEq, Repr

/-- The `tradeData` sub-message of a broker position: symbol, side and
volume in broker units (hundredths of a lot). -/
structure TradeData where
  symbolId : ℤ
  tradeSide : TradeSide
  volume : ℕ
  deriving DecidableEq, Repr

/-- A broker position as returned by ProtoOAReconcileRes. -/
structure Position where
  positionId : ℤ
  tradeData : TradeData
  positionStatus : PositionStatus
  deriving DecidableEq, Repr

/-- An outbound broker-mutating request issued by the engine:
ProtoOAClosePositionReq (positionId, volume in broker units) or
ProtoOANewOrderReq (symbolId, orderType string after upcasing, side,
volume in broker units). -/
inductive Request where
  | closePosition (positionId : ℤ) (volume : ℤ)
  | newOrder (symbolId : ℤ) (orderType : String) (tradeSide : TradeSide) (volume : ℤ)
  deriving DecidableEq, Repr

/-- Python `int()` applied to a rational: truncation toward zero. -/
def pyInt (q : ℚ) : ℤ :=
  if 0 ≤ q then ⌊q⌋ else ⌈q⌉

/-- Python `str.upper()`: upcase every character. -/
def pyUpper (s : String) : String :=
  String.mk (s.data.map Char.toUpper)

/-- Python `str.lower()`: downcase every character. -/
def pyLower (s : String) : String :=
  String.mk (s.data.map Char.toLower)

/-- Decimal digit run parsing used by `pyParseInt?`. -/
def pyDigits? (l : List Char) : Option ℕ :=
  if l = [] then none
  else l.foldl (fun acc? c => acc?.bind fun acc =>
    if c.isDigit then some (acc * 10 + (c.toNat - 48)) else none) (some 0)

/-- Python `int()` applied to a string: parses an optionally signed
decimal integer, `none` when the string is not one (a ValueError). -/
def pyParseInt? (s : String) : Option ℤ :=
  match s.data with
  | '-' :: rest => (pyDigits? rest).map fun n => -(n : ℤ)
  | l => (pyDigits? l).map fun n => (n : ℤ)

/-- The position volume in lots, as computed by the code:
`position.tradeData.volume / 100`. -/
def lotVolume (p : Position) : ℚ :=
  (p.tradeData.volume : ℚ) / 100

/-- Result of the netting loop of `place_order`
(src/tradingview_ctrader_webhook.py lines 124-140): the close calls made
(positionId, volume in lots), the final `net_volume`, the final
`same_side_volume`, and whether the loop ended through `break`. -/
structure LoopResult where
  closures : List (ℤ × ℚ)
  net : ℚ
  same : ℚ
  broke : Bool
  deriving DecidableEq, Repr

/-- The `for position in existing_positions` loop of `place_order`,
carrying `net_volume` and `same_side_volume`.  A same-side position is
closed in full and its lot volume added to `same_side_volume`; an
opposite-side position with volume at most `net_volume` is closed in
full and consumes `net_volume`; otherwise exactly `net_volume` is
closed, `net_volume` is set to zero and the loop breaks. -/
def netLoop (side : TradeSide) : List Position → ℚ → ℚ → LoopResult
  | [], net, same => ⟨[], net, same, false⟩
  | p :: rest, net, same =>
    if p.tradeData.tradeSide = side then
      let r := netLoop side rest net (same + lotVolume p)
      ⟨(p.positionId, lotVolume p) :: r.closures, r.net, r.same, r.broke⟩
    else
      if lotVolume p ≤ net then
        let r := netLoop side rest (net - lotVolume p) same
        ⟨(p.positionId, lotVolume p) :: r.closures, r.net, r.same, r.broke⟩
      else
        ⟨[(p.positionId, net)], 0, same, true⟩

/-- The spec's NettingPlan: ordered closures plus an optional residual
open order. -/
structure NettingPlan where
  closures : List (ℤ × ℚ)
  residual : Option (TradeSide × ℚ)
  deriving DecidableEq, Repr

/-- The plan computed by one pass of `place_order`: the close calls of
the netting loop, and a residual of `net_volume + same_side_volume` when
that total is positive (lines 142-156). -/
def planOf (side : TradeSide) (volume : ℚ) (positions : List Position) : NettingPlan :=
  let r := netLoop side positions volume 0
  ⟨r.closures, if 0 < r.net + r.same then some (side, r.net + r.same) else none⟩

/-- The `place_order` callback of `send_new_order_request`
(src/tradingview_ctrader_webhook.py lines 119-158): given the existing
positions (`none` models the failed-query `None`), returns the broker
requests issued in order (closes during the loop, then the optional new
order) and the boolean result. -/
def place_order (symbolId : ℤ) (orderType : String) (tradeSide : TradeSide)
    (volume : ℚ) (existing : Option (List Position)) : List Request × Bool :=
  match existing with
  | none => ([], false)
  | some positions =>
    let r := netLoop tradeSide positions volume 0
    let closeReqs := r.closures.map fun c => Request.closePosition c.1 (pyInt (c.2 * 100))
    let total := r.net + r.same
    if 0 < total then
      (closeReqs ++
        [Request.newOrder symbolId (pyUpper orderType) tradeSide (pyInt (total * 100))], true)
    else
      (closeReqs, true)

/-- `on_reconcile_received` (src/tradingview_ctrader_webhook.py lines
102-115): filter the broker's full position list down to the requested
symbol with status OPEN. -/
def on_reconcile_received (positions : List Position) (symbolId : ℤ) : List Position :=
  positions.filter fun p =>
    decide (p.tradeData.symbolId = symbolId) && decide (p.positionStatus = PositionStatus.OPEN)

/-- The JSON payload of the `/webhook` endpoint of
src/tradingview_ctrader_webhook.py, after field lookup: each required
field is present or absent. -/
structure Payload where
  symbolId : Option ℤ
  tradeSide : Option String
  volume : Option ℚ
  deriving DecidableEq, Repr

/-- The order-processing work scheduled out-of-band by the webhook
(`reactor.callLater(2, process_order, ...)`). -/
structure Scheduled where
  symbolId : ℤ
  tradeSide : String
  volume : ℚ
  deriving DecidableEq, Repr

/-- The `/webhook` handler of src/tradingview_ctrader_webhook.py (lines
213-245): returns the HTTP status and the work scheduled for later, if
any.  `none` input models a request whose JSON body is absent or falsy. -/
def webhook (data : Option Payload) : ℕ × Option Scheduled :=
  match data with
  | none => (400, none)
  | some d =>
    match d.symbolId, d.tradeSide, d.volume with
    | some sym, some ts, some vol =>
      let side := pyUpper ts
      if side = "BUY" ∨ side = "SELL" then
        if vol ≤ 0 then (400, none)
        else (202, some ⟨sym, side, vol⟩)
      else (400, none)
    | _, _, _ => (400, none)

/-- Sum, in lots, of the snapshot volumes of the positions on the
intent's side. -/
def sameSideSum (side : TradeSide) (positions : List Position) : ℚ :=
  ((positions.filter fun p => decide (p.tradeData.tradeSide = side)).map lotVolume).sum

/-- The close volumes a plan directs at one positionId. -/
def closuresFor (pid : ℤ) (cs : List (ℤ × ℚ)) : List ℚ :=
  (cs.filter fun c => decide (c.1 = pid)).map Prod.snd

/-- The JSON payload of src/app.py's `/webhook`, after `data.get`:
`symbol` and `action` are absent or a string; `quantity` is
`float(data.get('quantity', 0))`. -/
structure AppPayload where
  symbol : Option String
  action : Option String
  quantity : ℚ
  deriving DecidableEq, Repr

/-- The ProtoOANewOrderReq built by src/app.py's `place_order`. -/
structure AppOrder where
  ctidTraderAccountId : ℤ
  symbolId : ℤ
  tradeSide : TradeSide
  volume : ℤ
  deriving DecidableEq, Repr

/-- The trade side chosen by src/app.py's `place_order` (line 112):
BUY when the action lower-cases to "buy", SELL in every other case. -/
def app_trade_side (action : String) : TradeSide :=
  if pyLower action = "buy" then TradeSide.BUY else TradeSide.SELL

/-- src/app.py `place_order` (lines 103-120): raises (modelled `none`)
when not authenticated or when `int(symbol)` fails; otherwise builds the
market order request. -/
def app_place_order (accountId : ℤ) (isAuth : Bool) (symbol action : String)
    (volume : ℚ) : Option AppOrder :=
  if isAuth then
    match pyParseInt? symbol with
    | none => none
    | some sid => some ⟨accountId, sid, app_trade_side action, pyInt (volume * 100)⟩
  else none

/-- src/app.py `/webhook` (lines 130-175): presence check via Python
truthiness of `all([symbol, action, quantity])`, then `place_order`;
an exception inside gives 500, success gives 202 with the order sent. -/
def app_webhook (accountId : ℤ) (isAuth : Bool) (p : AppPayload) : ℕ × Option AppOrder :=
  match p.symbol, p.action with
  | some s, some a =>
    if s = "" ∨ a = "" ∨ p.quantity = 0 then (400, none)
    else
      match app_place_order accountId isAuth s a p.quantity with
      | none => (500, none)
      | some o => (202, some o)
  | _, _ => (400, none)

/-- Spec section 8 scenario: intent BUY 2, snapshot [SELL 1 lot, SELL 3
lots] — close the first in full, the second partially by the remaining
1 lot, no residual. -/
theorem scenario_partial_opposite_close :
    planOf TradeSide.BUY 2
      [⟨1, ⟨7, TradeSide.SELL, 100⟩, PositionStatus.OPEN⟩,
       ⟨2, ⟨7, TradeSide.SELL, 300⟩, PositionStatus.OPEN⟩] =
      ⟨[(1, 1), (2, 1)], none⟩ := by
  norm_num +decide [planOf, netLoop, lotVolume]

/-- Spec section 8 scenario: intent BUY 2, snapshot [BUY 1 lot] — the
same-side position is closed in full and the residual is BUY 3. -/
theorem scenario_same_side_flatten :
    planOf TradeSide.BUY 2 [⟨3, ⟨7, TradeSide.BUY, 100⟩, PositionStatus.OPEN⟩] =
      ⟨[(3, 1)], some (TradeSide.BUY, 3)⟩ := by
  norm_num +decide [planOf, netLoop, lotVolume]

/-- Volume-matching opposite position: intent BUY 2 against one SELL 2
lots closes exactly that position with no residual. -/
theorem scenario_exact_opposite_close :
    planOf TradeSide.BUY 2 [⟨4, ⟨7, TradeSide.SELL, 200⟩, PositionStatus.OPEN⟩] =
      ⟨[(4, 2)], none⟩ := by
  norm_num +decide [planOf, netLoop, lotVolume]

theorem lotVolume_nonneg (p : Position) : 0 ≤ lotVolume p := by
  unfold lotVolume
  positivity

theorem netLoop_net_bounds (side : TradeSide) (ps : List Position) :
    ∀ net same : ℚ, 0 ≤ net →
      0 ≤ (netLoop side ps net same).net ∧ (netLoop side ps net same).net ≤ net := by
  induction ps with
  | nil =>
    intro net same h
    exact ⟨h, le_refl _⟩
  | cons q rest ih =>
    intro net same h
    by_cases hq : q.tradeData.tradeSide = side
    · simp only [netLoop, if_pos hq]
      exact ih net (same + lotVolume q) h
    · by_cases hle : lotVolume q ≤ net
      · simp only [netLoop, if_neg hq, if_pos hle]
        have h2 : 0 ≤ net - lotVolume q := by linarith
        have h3 := ih (net - lotVolume q) same h2
        have h4 := lotVolume_nonneg q
        exact ⟨h3.1, h3.2.trans (by linarith)⟩
      · simp only [netLoop, if_neg hq, if_neg hle]
        exact ⟨le_refl 0, h⟩

theorem netLoop_countP_le (side : TradeSide) (ps : List Position) (pid : ℤ) :
    ∀ net same : ℚ,
      ((netLoop side ps net same).closures.countP fun c => decide (c.1 = pid)) ≤
        ps.countP fun p => decide (p.positionId = pid) := by
  induction ps with
  | nil =>
    intro net same
    simp [netLoop]
  | cons q rest ih =>
    intro net same
    by_cases hq : q.tradeData.tradeSide = side
    · simp only [netLoop, if_pos hq, List.countP_cons]
      exact Nat.add_le_add (ih _ _) (le_refl _)
    · by_cases hle : lotVolume q ≤ net
      · simp only [netLoop, if_neg hq, if_pos hle, List.countP_cons]
        exact Nat.add_le_add (ih _ _) (le_refl _)
      · simp only [netLoop, if_neg hq, if_neg hle, List.countP_cons, List.countP_nil]
        exact Nat.add_le_add (Nat.zero_le _) (le_refl _)

theorem netLoop_closures_source (side : TradeSide) (ps : List Position) :
    ∀ net same : ℚ, ∀ c ∈ (netLoop side ps net same).closures,
      ∃ p, p ∈ ps ∧ c.1 = p.positionId ∧
        ((p.tradeData.tradeSide = side ∧ c.2 = lotVolume p) ∨
         (p.tradeData.tradeSide ≠ side ∧ ∃ rem, c.2 = min (lotVolume p) rem)) := by
  induction ps with
  | nil =>
    intro net same c hc
    simp [netLoop] at hc
  | cons q rest ih =>
    intro net same c hc
    by_cases hq : q.tradeData.tradeSide = side
    · simp only [netLoop, if_pos hq, List.mem_cons] at hc
      rcases hc with rfl | hc
      · exact ⟨q, List.mem_cons_self q rest, rfl, Or.inl ⟨hq, rfl⟩⟩
      · obtain ⟨p, hp, h1, h2⟩ := ih _ _ c hc
        exact ⟨p, List.mem_cons_of_mem _ hp, h1, h2⟩
    · by_cases hle : lotVolume q ≤ net
      · simp only [netLoop, if_neg hq, if_pos hle, List.mem_cons] at hc
        rcases hc with rfl | hc
        · exact ⟨q, List.mem_cons_self q rest, rfl, Or.inr ⟨hq, net, (min_eq_left hle).symm⟩⟩
        · obtain ⟨p, hp, h1, h2⟩ := ih _ _ c hc
          exact ⟨p, List.mem_cons_of_mem _ hp, h1, h2⟩
      · simp only [netLoop, if_neg hq, if_neg hle, List.mem_cons, List.not_mem_nil,
          or_false] at hc
        subst hc
        exact ⟨q, List.mem_cons_self q rest, rfl,
          Or.inr ⟨hq, net, (min_eq_right (le_of_lt (lt_of_not_le hle))).symm⟩⟩

theorem netLoop_not_broke_same (side : TradeSide) (ps : List Position) :
    ∀ net same : ℚ, (netLoop side ps net same).broke = false →
      (netLoop side ps net same).same = same + sameSideSum side ps := by
  induction ps with
  | nil =>
    intro net same _
    simp [netLoop, sameSideSum]
  | cons q rest ih =>
    intro net same hb
    by_cases hq : q.tradeData.tradeSide = side
    · simp only [netLoop, if_pos hq] at hb ⊢
      rw [ih _ _ hb]
      simp [sameSideSum, List.filter_cons, hq]
      ring
    · by_cases hle : lotVolume q ≤ net
      · simp only [netLoop, if_neg hq, if_pos hle] at hb ⊢
        rw [ih _ _ hb]
        simp [sameSideSum, List.filter_cons, hq]
      · simp only [netLoop, if_neg hq, if_neg hle] at hb
        exact absurd hb (by simp)

theorem netLoop_not_broke_mem (side : TradeSide) (ps : List Position) :
    ∀ net same : ℚ, (netLoop side ps net same).broke = false →
      ∀ p ∈ ps, p.tradeData.tradeSide = side →
        (p.positionId, lotVolume p) ∈ (netLoop side ps net same).closures := by
  induction ps with
  | nil =>
    intro net same _ p hp
    simp at hp
  | cons q rest ih =>
    intro net same hb p hp hside
    by_cases hq : q.tradeData.tradeSide = side
    · simp only [netLoop, if_pos hq] at hb ⊢
      rcases List.mem_cons.mp hp with rfl | hp'
      · exact List.mem_cons_self _ _
      · exact List.mem_cons_of_mem _ (ih _ _ hb p hp' hside)
    · by_cases hle : lotVolume q ≤ net
      · simp only [netLoop, if_neg hq, if_pos hle] at hb ⊢
        rcases List.mem_cons.mp hp with rfl | hp'
        · exact absurd hside hq
        · exact List.mem_cons_of_mem _ (ih _ _ hb p hp' hside)
      · simp only [netLoop, if_neg hq, if_neg hle] at hb
        exact absurd hb (by simp)

theorem closuresFor_cons (pid : ℤ) (c : ℤ × ℚ) (cs : List (ℤ × ℚ)) :
    closuresFor pid (c :: cs) =
      if c.1 = pid then c.2 :: closuresFor pid cs else closuresFor pid cs := by
  unfold closuresFor
  rw [List.filter_cons]
  by_cases h : c.1 = pid <;> simp [h]

theorem closuresFor_eq_nil (pid : ℤ) (cs : List (ℤ × ℚ))
    (h : ∀ c ∈ cs, c.1 ≠ pid) : closuresFor pid cs = [] := by
  unfold closuresFor
  have hf : (cs.filter fun c => decide (c.1 = pid)) = [] := by
    rw [List.filter_eq_nil_iff]
    intro c hc
    simpa using h c hc
  rw [hf]
  rfl

theorem closuresFor_length (pid : ℤ) (cs : List (ℤ × ℚ)) :
    (closuresFor pid cs).length = cs.countP fun c => decide (c.1 = pid) := by
  simp [closuresFor, List.countP_eq_length_filter]

theorem countP_positionId_eq_one :
    ∀ ps : List Position, (ps.map Position.positionId).Nodup →
      ∀ p ∈ ps, (ps.countP fun q => decide (q.positionId = p.positionId)) = 1 := by
  intro ps
  induction ps with
  | nil =>
    intro _ p hp
    simp at hp
  | cons q rest ih =>
    intro hnd p hp
    rw [List.map_cons, List.nodup_cons] at hnd
    obtain ⟨hqn, hnd'⟩ := hnd
    rcases List.mem_cons.mp hp with rfl | hp'
    · rw [List.countP_cons]
      have h0 : (rest.countP fun x => decide (x.positionId = p.positionId)) = 0 := by
        rw [List.countP_eq_zero]
        intro x hx
        simp only [decide_eq_true_eq]
        intro hEq
        exact hqn (hEq ▸ List.mem_map_of_mem Position.positionId hx)
      simp [h0]
    · rw [List.countP_cons]
      have hne : q.positionId ≠ p.positionId := by
        intro hEq
        exact hqn (hEq ▸ List.mem_map_of_mem Position.positionId hp')
      rw [ih hnd' p hp']
      simp [hne]

theorem netLoop_sumFor_le (side : TradeSide) :
    ∀ ps : List Position, (ps.map Position.positionId).Nodup →
      ∀ net same : ℚ, ∀ p ∈ ps,
        (closuresFor p.positionId (netLoop side ps net same).closures).sum ≤ lotVolume p := by
  intro ps
  induction ps with
  | nil =>
    intro _ net same p hp
    simp at hp
  | cons q rest ih =>
    intro hnd net same p hp
    rw [List.map_cons, List.nodup_cons] at hnd
    obtain ⟨hqn, hnd'⟩ := hnd
    have hrest_ids : ∀ r : LoopResult, ∀ net' same' : ℚ,
        r = netLoop side rest net' same' → closuresFor q.positionId r.closures = [] := by
      intro r net' same' hr
      apply closuresFor_eq_nil
      intro c hc
      obtain ⟨p', hp', h1, _⟩ := netLoop_closures_source side rest net' same' c (hr ▸ hc)
      intro hEq
      exact hqn ((hEq ▸ h1) ▸ List.mem_map_of_mem Position.positionId hp')
    by_cases hq : q.tradeData.tradeSide = side
    · simp only [netLoop, if_pos hq]
      rcases List.mem_cons.mp hp with rfl | hp'
      · rw [closuresFor_cons]
        simp only [if_pos rfl]
        rw [hrest_ids _ net (same + lotVolume p) rfl]
        simp
      · have hne : q.positionId ≠ p.positionId := by
          intro hEq
          exact hqn (hEq ▸ List.mem_map_of_mem Position.positionId hp')
        rw [closuresFor_cons, if_neg hne]
        exact ih hnd' net (same + lotVolume q) p hp'
    · by_cases hle : lotVolume q ≤ net
      · simp only [netLoop, if_neg hq, if_pos hle]
        rcases List.mem_cons.mp hp with rfl | hp'
        · rw [closuresFor_cons]
          simp only [if_pos rfl]
          rw [hrest_ids _ (net - lotVolume p) same rfl]
          simp
        · have hne : q.positionId ≠ p.positionId := by
            intro hEq
            exact hqn (hEq ▸ List.mem_map_of_mem Position.positionId hp')
          rw [closuresFor_cons, if_neg hne]
          exact ih hnd' (net - lotVolume q) same p hp'
      · simp only [netLoop, if_neg hq, if_neg hle]
        rcases List.mem_cons.mp hp with rfl | hp'
        · rw [closuresFor_cons]
          simp only [if_pos rfl]
          rw [closuresFor_eq_nil _ [] (by simp)]
          simpa using le_of_lt (lt_of_not_le hle)
        · have hne : q.positionId ≠ p.positionId := by
            intro hEq
            exact hqn (hEq ▸ List.mem_map_of_mem Position.positionId hp')
          rw [closuresFor_cons, if_neg hne, closuresFor_eq_nil _ [] (by simp)]
          simpa using lotVolume_nonneg p

/-- Claim C5: for every symbolId and broker position list, the reconcile
handler returns exactly the positions whose symbolId matches the request
and whose status is OPEN; other symbols and non-OPEN statuses are
excluded. -/
theorem c5_reconcile_filter (ps : List Position) (sym : ℤ) (p : Position) :
    p ∈ on_reconcile_received ps sym ↔
      p ∈ ps ∧ p.tradeData.symbolId = sym ∧ p.positionStatus = PositionStatus.OPEN := by
  simp [on_reconcile_received, List.mem_filter, and_assoc]

/-- Claim C6: when the position query fails (the snapshot is `None`),
`place_order` issues no broker request at all and reports failure. -/
theorem c6_failed_query_no_dispatch (sym : ℤ) (ot : String) (side : TradeSide)
    (vol : ℚ) :
    place_order sym ot side vol none = ([], false) := rfl

/-- Claim C8: with an empty snapshot the plan has no closures and a
residual of exactly the intent's side and volume, and the only dispatched
request is the single new market order for the full volume. -/
theorem c8_empty_snapshot (sym : ℤ) (ot : String) (side : TradeSide) (vol : ℚ)
    (h : 0 < vol) :
    planOf side vol [] = ⟨[], some (side, vol)⟩ ∧
    (place_order sym ot side vol (some [])).1 =
      [Request.newOrder sym (pyUpper ot) side (pyInt (vol * 100))] := by
  constructor
  · simp [planOf, netLoop, h]
  · simp [place_order, netLoop, h]

/-- Claim C8 witness at the spec's scenario: side SELL, volume 5, no open
positions. -/
theorem c8_empty_snapshot_witness :
    planOf TradeSide.SELL 5 [] = ⟨[], some (TradeSide.SELL, 5)⟩ :=
  (c8_empty_snapshot 7 "MARKET" TradeSide.SELL 5 (by norm_num)).1

/-- Claim C9: along one planning pass started from a non-negative
remaining volume, the remaining volume ends non-negative and never above
its starting value, and no positionId receives more close requests than
it has occurrences in the snapshot (at most one per position). -/
theorem c9_net_volume_invariant (side : TradeSide) (ps : List Position)
    (net same : ℚ) (h : 0 ≤ net) :
    0 ≤ (netLoop side ps net same).net ∧ (netLoop side ps net same).net ≤ net ∧
    ∀ pid : ℤ, ((netLoop side ps net same).closures.countP fun c => decide (c.1 = pid)) ≤
      ps.countP fun p => decide (p.positionId = pid) := by
  obtain ⟨h1, h2⟩ := netLoop_net_bounds side ps net same h
  exact ⟨h1, h2, fun pid => netLoop_countP_le side ps pid net same⟩

/-- Claim C9 witness: the invariant at a concrete snapshot and intent. -/
theorem c9_net_volume_invariant_witness :
    0 ≤ (netLoop TradeSide.BUY
      [⟨1, ⟨7, TradeSide.SELL, 500⟩, PositionStatus.OPEN⟩] 2 0).net :=
  (c9_net_volume_invariant TradeSide.BUY
    [⟨1, ⟨7, TradeSide.SELL, 500⟩, PositionStatus.OPEN⟩] 2 0 (by norm_num)).1

/-- Claim C3: the plan's residual is exactly (side, remaining + same-side
volume) when that total is positive and absent otherwise; a present
residual has positive volume; and a new open order is dispatched if and
only if the netted total is positive. -/
theorem c3_residual_iff_positive_total (sym : ℤ) (ot : String) (side : TradeSide)
    (vol : ℚ) (ps : List Position) :
    ((planOf side vol ps).residual =
        some (side, (netLoop side ps vol 0).net + (netLoop side ps vol 0).same) ↔
      0 < (netLoop side ps vol 0).net + (netLoop side ps vol 0).same) ∧
    (∀ x, (planOf side vol ps).residual = some x →
      x = (side, (netLoop side ps vol 0).net + (netLoop side ps vol 0).same) ∧
        0 < x.2) ∧
    ((∃ v : ℤ, Request.newOrder sym (pyUpper ot) side v ∈
        (place_order sym ot side vol (some ps)).1) ↔
      0 < (netLoop side ps vol 0).net + (netLoop side ps vol 0).same) := by
  by_cases h : 0 < (netLoop side ps vol 0).net + (netLoop side ps vol 0).same
  · refine ⟨⟨fun _ => h, fun _ => by simp [planOf, h]⟩, ?_, ?_⟩
    · intro x hx
      simp only [planOf, if_pos h, Option.some.injEq] at hx
      exact ⟨hx.symm, by rw [← hx]; exact h⟩
    · refine ⟨fun _ => h, fun _ => ?_⟩
      refine ⟨pyInt (((netLoop side ps vol 0).net + (netLoop side ps vol 0).same) * 100), ?_⟩
      simp [place_order, h]
  · refine ⟨⟨fun hx => ?_, fun hx => absurd hx h⟩, ?_, ?_, fun hx => absurd hx h⟩
    · simp [planOf, h] at hx
    · intro x hx
      simp [planOf, h] at hx
    · rintro ⟨v, hv⟩
      simp only [place_order, if_neg h, List.mem_map] at hv
      obtain ⟨c, _, hc⟩ := hv
      exact absurd hc (by simp)

/-- Claim C3 witness: empty snapshot, volume 5 — the residual is present
and equals the netted total. -/
theorem c3_residual_witness :
    (planOf TradeSide.BUY 5 []).residual =
      some (TradeSide.BUY, (netLoop TradeSide.BUY [] 5 0).net +
        (netLoop TradeSide.BUY [] 5 0).same) :=
  (c3_residual_iff_positive_total 7 "MARKET" TradeSide.BUY 5 []).1.mpr
    (by norm_num [netLoop])

/-- Claim C4: for a snapshot with distinct positionIds, the total close
volume the plan directs at any position never exceeds that position's
snapshot volume, each position receives at most one close request, and
every closure stems from a snapshot position — same-side positions
closed by exactly their own volume, opposite-side ones by the minimum of
their volume and a remaining amount. -/
theorem c4_no_over_closing (side : TradeSide) (vol : ℚ) (ps : List Position)
    (hnd : (ps.map Position.positionId).Nodup) :
    (∀ p ∈ ps,
      (closuresFor p.positionId (planOf side vol ps).closures).sum ≤ lotVolume p ∧
      (closuresFor p.positionId (planOf side vol ps).closures).length ≤ 1) ∧
    (∀ c ∈ (planOf side vol ps).closures, ∃ p, p ∈ ps ∧ c.1 = p.positionId ∧
      ((p.tradeData.tradeSide = side ∧ c.2 = lotVolume p) ∨
       (p.tradeData.tradeSide ≠ side ∧ ∃ rem, c.2 = min (lotVolume p) rem))) := by
  have hplan : (planOf side vol ps).closures = (netLoop side ps vol 0).closures := rfl
  constructor
  · intro p hp
    constructor
    · rw [hplan]
      exact netLoop_sumFor_le side ps hnd vol 0 p hp
    · rw [hplan, closuresFor_length]
      calc ((netLoop side ps vol 0).closures.countP fun c => decide (c.1 = p.positionId)) ≤
          ps.countP fun x => decide (x.positionId = p.positionId) :=
            netLoop_countP_le side ps p.positionId vol 0
        _ = 1 := countP_positionId_eq_one ps hnd p hp
  · intro c hc
    rw [hplan] at hc
    exact netLoop_closures_source side ps vol 0 c hc

/-- Claim C4 witness: the no-over-closing bound at a concrete snapshot
with a distinct positionId. -/
theorem c4_no_over_closing_witness :
    (closuresFor 1 (planOf TradeSide.BUY 2
      [⟨1, ⟨7, TradeSide.SELL, 500⟩, PositionStatus.OPEN⟩]).closures).sum ≤
      lotVolume ⟨1, ⟨7, TradeSide.SELL, 500⟩, PositionStatus.OPEN⟩ :=
  ((c4_no_over_closing TradeSide.BUY 2
    [⟨1, ⟨7, TradeSide.SELL, 500⟩, PositionStatus.OPEN⟩] (by simp)).1
    ⟨1, ⟨7, TradeSide.SELL, 500⟩, PositionStatus.OPEN⟩ (by simp)).1

/-- Claim C1 counterexample: intent BUY 2 against snapshot
[SELL 5 lots, BUY 1 lot].  The opposite-side partial closure breaks out
of the whole loop, so the same-side position (id 2, 1 lot) is never
closed and the residual omits its volume: the plan is just
{closures: [(1, 2)], residual: none}. -/
theorem c1_counterexample :
    ((2 : ℤ), (1 : ℚ)) ∉ (planOf TradeSide.BUY 2
      [⟨1, ⟨7, TradeSide.SELL, 500⟩, PositionStatus.OPEN⟩,
       ⟨2, ⟨7, TradeSide.BUY, 100⟩, PositionStatus.OPEN⟩]).closures ∧
    (planOf TradeSide.BUY 2
      [⟨1, ⟨7, TradeSide.SELL, 500⟩, PositionStatus.OPEN⟩,
       ⟨2, ⟨7, TradeSide.BUY, 100⟩, PositionStatus.OPEN⟩]).residual = none := by
  constructor
  · norm_num +decide [planOf, netLoop, lotVolume]
  · norm_num +decide [planOf, netLoop, lotVolume]

/-- Claim C1 (amended): provided the netting pass traverses the whole
snapshot (the opposite-side walk never takes its early-exit break),
every same-side position appears in the plan as a full closure, any
present residual's volume includes the summed same-side volume, and the
residual is present whenever that sum is positive. -/
theorem c1_same_side_closure_no_break (side : TradeSide) (vol : ℚ)
    (ps : List Position) (hnb : (netLoop side ps vol 0).broke = false)
    (hvol : 0 ≤ vol) :
    (∀ p ∈ ps, p.tradeData.tradeSide = side →
      (p.positionId, lotVolume p) ∈ (planOf side vol ps).closures) ∧
    (∀ x, (planOf side vol ps).residual = some x → sameSideSum side ps ≤ x.2) ∧
    (0 < sameSideSum side ps → (planOf side vol ps).residual ≠ none) := by
  have hsame : (netLoop side ps vol 0).same = sameSideSum side ps := by
    have h := netLoop_not_broke_same side ps vol 0 hnb
    simpa using h
  have hnet : 0 ≤ (netLoop side ps vol 0).net := (netLoop_net_bounds side ps vol 0 hvol).1
  refine ⟨?_, ?_, ?_⟩
  · intro p hp hside
    exact netLoop_not_broke_mem side ps vol 0 hnb p hp hside
  · intro x hx
    by_cases h : 0 < (netLoop side ps vol 0).net + (netLoop side ps vol 0).same
    · simp only [planOf, if_pos h, Option.some.injEq] at hx
      have hx2 : x.2 = (netLoop side ps vol 0).net + (netLoop side ps vol 0).same := by
        rw [← hx]
      rw [hx2, ← hsame]
      linarith
    · simp [planOf, h] at hx
  · intro hpos
    have h : 0 < (netLoop side ps vol 0).net + (netLoop side ps vol 0).same := by
      rw [hsame]
      linarith
    simp [planOf, h]

/-- Claim C1 witness: snapshot [SELL 1 lot, BUY 1 lot], intent BUY 2 — no
break occurs and the same-side position (id 2) is fully closed. -/
theorem c1_same_side_closure_no_break_witness :
    ((2 : ℤ), (1 : ℚ)) ∈ (planOf TradeSide.BUY 2
      [⟨1, ⟨7, TradeSide.SELL, 100⟩, PositionStatus.OPEN⟩,
       ⟨2, ⟨7, TradeSide.BUY, 100⟩, PositionStatus.OPEN⟩]).closures := by
  have h := (c1_same_side_closure_no_break TradeSide.BUY 2
      [⟨1, ⟨7, TradeSide.SELL, 100⟩, PositionStatus.OPEN⟩,
       ⟨2, ⟨7, TradeSide.BUY, 100⟩, PositionStatus.OPEN⟩]
      (by norm_num +decide [netLoop, lotVolume]) (by norm_num)).1
      ⟨2, ⟨7, TradeSide.BUY, 100⟩, PositionStatus.OPEN⟩ (by decide) rfl
  have hlv : lotVolume ⟨2, ⟨7, TradeSide.BUY, 100⟩, PositionStatus.OPEN⟩ = 1 := by
    norm_num [lotVolume]
  rw [hlv] at h
  exact h

/-- Claim C2 counterexample: intent BUY 2 against snapshot
[SELL 2 lots, SELL 3 lots].  The first position consumes the volume
exactly, yet the second opposite position is not excluded: it receives a
zero-volume closure in the plan and a zero-volume
ProtoOAClosePositionReq on the wire. -/
theorem c2_counterexample :
    ((2 : ℤ), (0 : ℚ)) ∈ (planOf TradeSide.BUY 2
      [⟨1, ⟨7, TradeSide.SELL, 200⟩, PositionStatus.OPEN⟩,
       ⟨2, ⟨7, TradeSide.SELL, 300⟩, PositionStatus.OPEN⟩]).closures ∧
    Request.closePosition 2 0 ∈ (place_order 7 "MARKET" TradeSide.BUY 2 (some
      [⟨1, ⟨7, TradeSide.SELL, 200⟩, PositionStatus.OPEN⟩,
       ⟨2, ⟨7, TradeSide.SELL, 300⟩, PositionStatus.OPEN⟩])).1 := by
  constructor
  · norm_num +decide [planOf, netLoop, lotVolume]
  · norm_num +decide [place_order, netLoop, lotVolume, pyInt]

/-- Claim C2 (amended): when the intent's volume is exactly consumed by a
first opposite-side position and a further opposite-side position with
positive volume follows, that further position is not excluded: it
receives exactly one zero-volume closure, after which the walk stops, so
every later position receives nothing and no residual is placed. -/
theorem c2_exact_consumption_zero_close (side : TradeSide) (vol : ℚ)
    (p q : Position) (rest : List Position)
    (hp : p.tradeData.tradeSide ≠ side) (hpv : lotVolume p = vol)
    (hq : q.tradeData.tradeSide ≠ side) (hqv : 0 < lotVolume q) :
    planOf side vol (p :: q :: rest) =
      ⟨[(p.positionId, vol), (q.positionId, 0)], none⟩ := by
  have h1 : netLoop side (p :: q :: rest) vol 0 =
      ⟨[(p.positionId, vol), (q.positionId, 0)], 0, 0, true⟩ := by
    simp only [netLoop, if_neg hp, hpv, sub_self, le_refl, if_true, if_neg hq,
      if_neg (not_le.mpr hqv)]
  simp [planOf, h1]

/-- Claim C2 witness: intent BUY 2 against snapshot
[SELL 2 lots, SELL 3 lots, SELL 4 lots] — the second position gets the
zero-volume closure and the third gets nothing. -/
theorem c2_exact_consumption_zero_close_witness :
    planOf TradeSide.BUY 2
      [⟨1, ⟨7, TradeSide.SELL, 200⟩, PositionStatus.OPEN⟩,
       ⟨2, ⟨7, TradeSide.SELL, 300⟩, PositionStatus.OPEN⟩,
       ⟨3, ⟨7, TradeSide.SELL, 400⟩, PositionStatus.OPEN⟩] =
      ⟨[(1, 2), (2, 0)], none⟩ := by
  have h := c2_exact_consumption_zero_close TradeSide.BUY 2
      ⟨1, ⟨7, TradeSide.SELL, 200⟩, PositionStatus.OPEN⟩
      ⟨2, ⟨7, TradeSide.SELL, 300⟩, PositionStatus.OPEN⟩
      [⟨3, ⟨7, TradeSide.SELL, 400⟩, PositionStatus.OPEN⟩]
      (by decide) (by norm_num [lotVolume]) (by decide) (by norm_num [lotVolume])
  exact h

/-- Claim C7: the webhook rejects a malformed trade intent (missing
field, side not BUY/SELL after upcasing, volume not positive) with a 400
and schedules no broker work, and accepts every well-formed intent with
202 while scheduling the order processing out-of-band. -/
theorem c7_webhook_validation (data : Option Payload) :
    (∀ sym ts vol, data = some ⟨some sym, some ts, some vol⟩ →
      (pyUpper ts = "BUY" ∨ pyUpper ts = "SELL") → 0 < vol →
      webhook data = (202, some ⟨sym, pyUpper ts, vol⟩)) ∧
    ((∀ sym ts vol, data = some ⟨some sym, some ts, some vol⟩ →
        (pyUpper ts ≠ "BUY" ∧ pyUpper ts ≠ "SELL") ∨ vol ≤ 0) →
      webhook data = (400, none)) := by
  constructor
  · rintro sym ts vol rfl hside hvol
    simp only [webhook]
    rw [if_pos hside, if_neg (not_le.mpr hvol)]
  · intro hbad
    rcases data with _ | ⟨_ | sym, _ | ts, _ | vol⟩
    · rfl
    · rfl
    · rfl
    · rfl
    · rfl
    · rfl
    · rfl
    · rfl
    · have hb := hbad sym ts vol rfl
      simp only [webhook]
      rcases hb with ⟨h1, h2⟩ | hvol
      · rw [if_neg (not_or.mpr ⟨h1, h2⟩)]
      · by_cases hs : pyUpper ts = "BUY" ∨ pyUpper ts = "SELL"
        · rw [if_pos hs, if_pos hvol]
        · rw [if_neg hs]

/-- Claim C7 witness: a well-formed intent (symbol 7, side "buy",
volume 1) is accepted with 202 and its processing scheduled. -/
theorem c7_webhook_validation_witness :
    webhook (some ⟨some 7, some "buy", some 1⟩) = (202, some ⟨7, "BUY", 1⟩) := by
  have h := (c7_webhook_validation (some ⟨some 7, some "buy", some 1⟩)).1 7 "buy" 1 rfl
    (Or.inl (by decide)) (by norm_num)
  have e : pyUpper "buy" = "BUY" := by decide
  rw [e] at h
  exact h

/-- Claim C10: in src/app.py the broker side is BUY exactly when the
action lower-cases to "buy" and SELL in every other case, so a non-empty
unrecognized action that passes the webhook's presence check is
submitted as a SELL market order (202) instead of being rejected. -/
theorem c10_unrecognized_action_sell (accountId sid : ℤ) (s a : String) (q : ℚ)
    (hs : s ≠ "") (ha : a ≠ "") (hq : q ≠ 0) (hsid : pyParseInt? s = some sid)
    (hb : pyLower a ≠ "buy") :
    (∀ act : String, app_trade_side act = TradeSide.BUY ↔ pyLower act = "buy") ∧
    app_webhook accountId true ⟨some s, some a, q⟩ =
      (202, some ⟨accountId, sid, TradeSide.SELL, pyInt (q * 100)⟩) := by
  constructor
  · intro act
    by_cases hc : pyLower act = "buy" <;> simp [app_trade_side, hc]
  · have hcond : ¬ (s = "" ∨ a = "" ∨ q = 0) := by
      push_neg
      exact ⟨hs, ha, hq⟩
    simp only [app_webhook, if_neg hcond, app_place_order, if_true, hsid]
    simp [app_trade_side, hb]

/-- Claim C10 witness: action "close" with symbol "1" and quantity 1 is
accepted and submitted as a SELL order for 100 broker units. -/
theorem c10_unrecognized_action_sell_witness :
    app_webhook 5 true ⟨some "1", some "close", 1⟩ =
      (202, some ⟨5, 1, TradeSide.SELL, 100⟩) := by
  have h := (c10_unrecognized_action_sell 5 1 "1" "close" 1 (by decide) (by decide)
    (by norm_num) (by decide) (by decide)).2
  have e : pyInt ((1 : ℚ) * 100) = 100 := by
    norm_num [pyInt]
  rw [e] at h
  exact h
